import Mathlib

/-!
Shallow embedding of the data-consolidation core of the Dashboard repository
(`src/utils.py` and the time-series block of `src/process_data.py`).

Modelling choices:
* A spreadsheet cell is a `Cell`: missing (`NaN`/`NaT`), a string, a number
  (exact rationals stand in for floats), or a date.
* A pandas `DataFrame` is a `Frame`: a list of column names plus rows of
  cells, positionally aligned.
* A directory is a list of `(filename, Entry)` pairs: an entry is either a
  non-regular file (subdirectory) or a file together with the table the
  dispatched pandas reader (`read_csv`/`read_excel`) would produce for it,
  `Except.error` meaning the reader raised.
* Python `str.strip`/`str.title` are modelled for the basic-latin range
  (the range exercised by the column headers the program cares about).
-/

/-- A single spreadsheet cell.  `na` stands for pandas `NaN`/`NaT`/`None`. -/
inductive Cell where
  | na
  | str (s : String)
  | num (q : Rat)
  | date (y m d : Nat)
deriving Repr, DecidableEq

/-- ASCII letter test, on code points (Python `str.isalpha` restricted to
basic latin, which is what the headers use). -/
def isAlphaChar (c : Char) : Bool :=
  decide ((65 ≤ c.toNat ∧ c.toNat ≤ 90) ∨ (97 ≤ c.toNat ∧ c.toNat ≤ 122))

/-- Uppercase a basic-latin letter (identity elsewhere); the case mapping
used by Python `str.title` on ASCII input. -/
def upChar (c : Char) : Char :=
  if h : 97 ≤ c.toNat ∧ c.toNat ≤ 122 then
    ⟨⟨BitVec.ofNatLt (c.toNat - 32) (by omega)⟩, Or.inl (by show c.toNat - 32 < 55296; omega)⟩
  else c

/-- Lowercase a basic-latin letter (identity elsewhere). -/
def downChar (c : Char) : Char :=
  if h : 65 ≤ c.toNat ∧ c.toNat ≤ 90 then
    ⟨⟨BitVec.ofNatLt (c.toNat + 32) (by omega)⟩, Or.inl (by show c.toNat + 32 < 55296; omega)⟩
  else c

/-- One step of Python `str.title`: a letter is uppercased when the previous
character is not a letter, lowercased otherwise; non-letters are kept. -/
def titleChar (prevAlpha : Bool) (c : Char) : Char :=
  if isAlphaChar c then (if prevAlpha then downChar c else upChar c) else c

def pyTitleAux : Bool → List Char → List Char
  | _, [] => []
  | b, c :: cs => titleChar b c :: pyTitleAux (isAlphaChar c) cs

/-- Python `str.title` (ASCII case mapping). -/
def pyTitle (s : String) : String :=
  ⟨pyTitleAux false s.data⟩

/-- Python `str.strip` with no argument: remove leading and trailing
whitespace. -/
def pyStrip (s : String) : String :=
  ⟨((s.data.dropWhile Char.isWhitespace).reverse.dropWhile Char.isWhitespace).reverse⟩

/-- The column-name normalization of `load_data` line 54:
`c.strip().title()`. -/
def normName (c : String) : String :=
  pyTitle (pyStrip c)

/-- The suffix of the name starting at its last dot, when the name has one. -/
def extAux : List Char → Option (List Char)
  | [] => none
  | c :: cs =>
    match extAux cs with
    | some e => some e
    | none => if c = '.' then some (c :: cs) else none

/-- The extension part of `os.path.splitext` for a plain file name: the
suffix from the last dot, unless every character before that dot is itself a
dot (so `".hidden"` has no extension). -/
def splitextExt (s : String) : String :=
  match extAux s.data with
  | none => ""
  | some e =>
    if (s.data.take (s.data.length - e.length)).any (fun c => c ≠ '.') then
      ⟨e⟩
    else ""

/-- Python `str.lower` on a name (ASCII), as in `splitext(...)[1].lower()`. -/
def lowerStr (s : String) : String :=
  ⟨s.data.map downChar⟩

def digitsToNat (l : List Char) : Nat :=
  l.foldl (fun a c => a * 10 + (c.toNat - 48)) 0

/-- Unsigned decimal literal: `"12"`, `"1.5"`, `".5"`, `"5."`. -/
def parseUnsigned (l : List Char) : Option Rat :=
  match l.splitOn '.' with
  | [ds] =>
    if ds ≠ [] ∧ ds.all Char.isDigit then some ((digitsToNat ds : Int) : Rat)
    else none
  | [as, bs] =>
    if (as ≠ [] ∨ bs ≠ []) ∧ as.all Char.isDigit ∧ bs.all Char.isDigit then
      some (((digitsToNat as : Int) : Rat)
        + ((digitsToNat bs : Int) : Rat) / ((10 ^ bs.length : Nat) : Rat))
    else none
  | _ => none

/-- The numeric-string parsing performed by `pd.to_numeric` for decimal
literals: optional surrounding whitespace, optional sign, decimal digits with
at most one dot.  Any other string fails to parse. -/
def parseNumStr (s : String) : Option Rat :=
  match (pyStrip s).data with
  | [] => none
  | c :: cs =>
    if c = '-' then (parseUnsigned cs).map (fun q => -q)
    else if c = '+' then parseUnsigned cs
    else parseUnsigned (c :: cs)

/-- Model of `pd.to_numeric(_, errors="coerce")` on one cell: numbers are kept,
numeric strings are parsed, everything else becomes missing.  The function is
total: no cell value makes it raise. -/
def cellToNumeric : Cell → Cell
  | .num q => .num q
  | .str s =>
    match parseNumStr s with
    | some q => .num q
    | none => .na
  | _ => .na

def daysInMonth (y m : Nat) : Nat :=
  if m = 2 then
    if y % 4 = 0 ∧ (y % 100 ≠ 0 ∨ y % 400 = 0) then 29 else 28
  else if m = 4 ∨ m = 6 ∨ m = 9 ∨ m = 11 then 30
  else 31

/-- ISO `YYYY-MM-DD` date strings, the format `pd.to_datetime` accepts
unambiguously. -/
def parseIsoDate (s : String) : Option (Nat × Nat × Nat) :=
  match s.data.splitOn '-' with
  | [ys, ms, ds] =>
    if ys ≠ [] ∧ ms ≠ [] ∧ ds ≠ [] ∧ ys.all Char.isDigit ∧ ms.all Char.isDigit
        ∧ ds.all Char.isDigit then
      let y := digitsToNat ys
      let m := digitsToNat ms
      let d := digitsToNat ds
      if 1 ≤ m ∧ m ≤ 12 ∧ 1 ≤ d ∧ d ≤ daysInMonth y m then some (y, m, d)
      else none
    else none
  | _ => none

/-- Model of `pd.to_datetime(_, errors="coerce")` on one cell: dates are kept, ISO
date strings are parsed, everything else becomes missing (`NaT`).  Total. -/
def cellToDatetime : Cell → Cell
  | .date y m d => .date y m d
  | .str s =>
    match parseIsoDate s with
    | some (y, m, d) => .date y m d
    | none => .na
  | _ => .na

/-- A pandas `DataFrame`: column names plus rows of cells, the i-th cell of
a row belonging to the i-th column.  Column names may repeat, exactly as
pandas labels may after a rename. -/
structure Frame where
  cols : List String
  rows : List (List Cell)
deriving Repr, DecidableEq

/-- Selection `df[c]` for a column label: pandas returns the column when the label is
unique, raises `KeyError` when absent, and returns a two-dimensional object
(on which the numeric/datetime conversions of `utils.py` then raise) when
the label is duplicated. -/
def getCol (df : Frame) (c : String) : Except String (List Cell) :=
  if df.cols.count c = 1 then
    match df.cols.indexOf? c with
    | some i => .ok (df.rows.map (fun r => r.getD i Cell.na))
    | none => .error ("KeyError: " ++ c)
  else if df.cols.count c = 0 then .error ("KeyError: " ++ c)
  else .error ("pandas: duplicated label " ++ c)

/-- Assignment `df[c] = f(df[c])` as a column rewrite, with the same unique-label
requirement as `getCol` (the right-hand side is computed first and raises on
a duplicated or absent label). -/
def setCol (df : Frame) (c : String) (f : Cell → Cell) : Except String Frame :=
  if df.cols.count c = 1 then
    match df.cols.indexOf? c with
    | some i => .ok { df with rows := df.rows.map (fun r => r.set i (f (r.getD i Cell.na))) }
    | none => .error ("KeyError: " ++ c)
  else if df.cols.count c = 0 then .error ("KeyError: " ++ c)
  else .error ("pandas: duplicated label " ++ c)

instance {ε α : Type} [DecidableEq ε] [DecidableEq α] : DecidableEq (Except ε α) :=
  fun a b =>
    match a, b with
    | .error e, .error f =>
      if h : e = f then .isTrue (congrArg Except.error h)
      else .isFalse (fun t => h (Except.error.inj t))
    | .ok x, .ok y =>
      if h : x = y then .isTrue (congrArg Except.ok h)
      else .isFalse (fun t => h (Except.ok.inj t))
    | .error _, .ok _ => .isFalse (fun t => Except.noConfusion t)
    | .ok _, .error _ => .isFalse (fun t => Except.noConfusion t)

/-- One directory entry as `load_data` sees it: either a non-regular file
(subdirectory, skipped by the `os.path.isfile` test) or a regular file whose
content the dispatched pandas reader parses to the given table
(`Except.error` meaning the reader raised). -/
inductive Entry where
  | dir
  | file (parsed : Except String Frame)
deriving Repr, DecidableEq

/-- The errors that can escape `load_data`: the explicit
`FileNotFoundError("Nenhum arquivo válido encontrado em data_dir")` raised
when no valid file was found, and exceptions raised by the pandas column
operations outside the per-file `try` block. -/
inductive LoadErr where
  | noValidData
  | pandasErr (msg : String)
deriving Repr, DecidableEq

/-- What processing one directory entry yields: silently skipped, skipped
with the listed diagnostics printed, a parsed and coerced frame appended to
`all_frames`, or an exception escaping the loop. -/
inductive Outcome where
  | skip (diags : List String)
  | ok (df : Frame)
  | err (e : LoadErr)
deriving Repr, DecidableEq

/-- Line 54 of `utils.py`:
`df.rename(columns={c: c.strip().title() for c in df.columns})`. -/
def normalizeFrame (t : Frame) : Frame :=
  { t with cols := t.cols.map normName }

/-- Lines 57-58: `{"Cliente", "Tpv", "Markup"}.issubset({c.title() for c in
df.columns})`. -/
def requiredOk (cols : List String) : Bool :=
  ["Cliente", "Tpv", "Markup"].all (fun r => (cols.map pyTitle).contains r)

/-- Lines 53-70 of `utils.py`: normalize the header, check the required
columns, convert `Data` to datetime when present, coerce `Tpv` and `Markup`
to numeric. -/
def processTable (name : String) (t : Frame) : Outcome :=
  let df := normalizeFrame t
  if ¬ requiredOk df.cols then
    .skip ["Arquivo " ++ name ++ " ignorado: colunas necessárias não encontradas"]
  else
    match (if (df.cols.map pyTitle).contains "Data" then setCol df "Data" cellToDatetime
      else .ok df) with
    | .error m => .err (.pandasErr m)
    | .ok df1 =>
      match setCol df1 "Tpv" cellToNumeric with
      | .error m => .err (.pandasErr m)
      | .ok df2 =>
        match setCol df2 "Markup" cellToNumeric with
        | .error m => .err (.pandasErr m)
        | .ok df3 => .ok df3

def supportedExt (ext : String) : Bool :=
  ext == ".csv" || ext == ".xlsx" || ext == ".xls"

/-- Python `filename.startswith("~")`. -/
def startsWithTilde (s : String) : Bool :=
  match s.data with
  | c :: _ => c = '~'
  | [] => false

/-- The body of the `for filename in sorted(os.listdir(data_dir))` loop for
one entry: skip tilde names and non-files, dispatch on the lowercased
extension, absorb reader exceptions with a printed diagnostic, then run the
normalization/coercion steps. -/
def processEntry (name : String) (e : Entry) : Outcome :=
  if startsWithTilde name then .skip []
  else
    match e with
    | .dir => .skip []
    | .file parsed =>
      if supportedExt (lowerStr (splitextExt name)) then
        match parsed with
        | .error exc => .skip ["Falha ao ler " ++ name ++ ": " ++ exc]
        | .ok t => processTable name t
      else .skip ["Ignorando arquivo não suportado: " ++ name]

/-- The frames an entry appends to `all_frames` (one when retained, none
otherwise). -/
def entryFrames (e : String × Entry) : List Frame :=
  match processEntry e.1 e.2 with
  | .ok f => [f]
  | _ => []

/-- The diagnostics an entry prints. -/
def entryDiags (e : String × Entry) : List String :=
  match processEntry e.1 e.2 with
  | .skip ds => ds
  | _ => []

/-- Code-point lexicographic comparison on character lists: exactly how
Python compares the `str` file names inside `sorted`. -/
def lexLeB : List Char → List Char → Bool
  | [], _ => true
  | _ :: _, [] => false
  | a :: as, b :: bs =>
    if a.toNat < b.toNat then true
    else if a.toNat = b.toNat then lexLeB as bs
    else false

theorem lexLeB_total (x : List Char) : ∀ y, lexLeB x y = true ∨ lexLeB y x = true := by
  induction x with
  | nil => intro y; left; rfl
  | cons a as ih =>
    intro y
    cases y with
    | nil => right; rfl
    | cons b bs =>
      simp only [lexLeB]
      rcases Nat.lt_trichotomy a.toNat b.toNat with hab | hab | hab
      · left; rw [if_pos hab]
      · simp [hab]
        exact ih bs
      · right; rw [if_pos hab]

theorem lexLeB_trans (x : List Char) :
    ∀ y z, lexLeB x y = true → lexLeB y z = true → lexLeB x z = true := by
  induction x with
  | nil => intro y z _ _; rfl
  | cons a as ih =>
    intro y z hxy hyz
    cases y with
    | nil => exact absurd hxy (by simp [lexLeB])
    | cons b bs =>
      cases z with
      | nil => exact absurd hyz (by simp [lexLeB])
      | cons c cs =>
        simp only [lexLeB] at hxy hyz ⊢
        rcases Nat.lt_trichotomy a.toNat b.toNat with hab | hab | hab
        · rcases Nat.lt_trichotomy b.toNat c.toNat with hbc | hbc | hbc
          · rw [if_pos (by omega)]
          · rw [if_pos (by omega)]
          · rw [if_neg (by omega), if_neg (by omega)] at hyz
            exact Bool.noConfusion hyz
        · rw [if_neg (by omega), if_pos (by omega)] at hxy
          rcases Nat.lt_trichotomy b.toNat c.toNat with hbc | hbc | hbc
          · rw [if_pos (by omega)]
          · rw [if_neg (by omega), if_pos (by omega)] at hyz
            rw [if_neg (by omega), if_pos (by omega)]
            exact ih bs cs hxy hyz
          · rw [if_neg (by omega), if_neg (by omega)] at hyz
            exact Bool.noConfusion hyz
        · rw [if_neg (by omega), if_neg (by omega)] at hxy
          exact Bool.noConfusion hxy

/-- The sort key of `sorted(os.listdir(data_dir))`: file names compared
lexicographically by code point. -/
def nameLe (a b : String × Entry) : Prop :=
  lexLeB a.1.data b.1.data = true

instance : DecidableRel nameLe :=
  fun _ _ => inferInstanceAs (Decidable (_ = true))

instance : IsTotal (String × Entry) nameLe :=
  ⟨fun a b => lexLeB_total a.1.data b.1.data⟩

instance : IsTrans (String × Entry) nameLe :=
  ⟨fun a b c h1 h2 => lexLeB_trans a.1.data b.1.data c.1.data h1 h2⟩

/-- Model of `sorted(os.listdir(data_dir))`: the listing in lexicographic
(code-point) order of the file names. -/
def sortByName (l : List (String × Entry)) : List (String × Entry) :=
  List.insertionSort nameLe l

/-- The whole `for` loop: run every entry in order, collecting printed
diagnostics and retained frames, stopping at the first escaping exception. -/
def runEntries : List (String × Entry) → List String × Except LoadErr (List Frame)
  | [] => ([], .ok [])
  | e :: rest =>
    match processEntry e.1 e.2 with
    | .skip ds =>
      let r := runEntries rest
      (ds ++ r.1, r.2)
    | .ok f =>
      let r := runEntries rest
      (r.1, r.2.map (fun fs => f :: fs))
    | .err er => ([], .error er)

/-- Realign one row of a frame with column list `fcols` to the concatenated
column list `cols`, filling columns the frame lacks with `NaN` — the
row-wise effect of `pd.concat(..., ignore_index=True)` with outer join. -/
def alignRow (cols fcols : List String) (row : List Cell) : List Cell :=
  cols.map (fun c =>
    match fcols.indexOf? c with
    | some i => row.getD i Cell.na
    | none => Cell.na)

/-- Model of `pd.concat(all_frames, ignore_index=True)`: columns are the union in
order of first appearance, each frame's rows follow in order, realigned. -/
def concatFrames (fs : List Frame) : Frame :=
  let cols := fs.foldl (fun acc f => acc ++ f.cols.filter (fun c => ¬ c ∈ acc)) []
  { cols := cols
    rows := fs.flatMap (fun f => f.rows.map (alignRow cols f.cols)) }

/-- The function `load_data(data_dir)` over a modelled directory listing.  Returns the
printed diagnostics together with either the consolidated frame or the
escaping exception. -/
def load_data (listing : List (String × Entry)) : List String × Except LoadErr Frame :=
  let r := runEntries (sortByName listing)
  match r.2 with
  | .error e => (r.1, .error e)
  | .ok [] => (r.1, .error .noValidData)
  | .ok fs => (r.1, .ok (concatFrames fs))

/-- One row of the Customer Summary. -/
structure SummaryRow where
  cliente : Cell
  tpv_Total : Rat
  markup_Medio : Option Rat
  registros : Nat
deriving Repr, DecidableEq

def numOf : Cell → Option Rat
  | .num q => some q
  | _ => none

/-- Pandas `"sum"` aggregation over a numeric-or-missing column: missing
values are skipped, an all-missing column sums to `0`. -/
def sumCells (l : List Cell) : Rat :=
  (l.filterMap numOf).sum

/-- Pandas `"mean"` aggregation: missing values are excluded from numerator
and denominator; an all-missing column has mean `NaN`, modelled `none`. -/
def meanCells (l : List Cell) : Option Rat :=
  let v := l.filterMap numOf
  if v.isEmpty then none
  else some (v.sum / (v.length : Rat))

/-- Pandas `"count"` aggregation: the number of non-missing cells. -/
def countNonNa (l : List Cell) : Nat :=
  (l.filter (fun c => ¬ c = Cell.na)).length

/-- Model of `df.groupby("Cliente").agg(...)` over the per-row
`(Cliente, Tpv, Markup)` triples: group keys are the distinct non-missing
`Cliente` cells (`groupby` drops missing keys); each group aggregates the
rows whose `Cliente` equals the key. -/
def summarize (l : List (Cell × Cell × Cell)) : List SummaryRow :=
  let keys := (l.filterMap (fun p => if p.1 = Cell.na then none else some p.1)).dedup
  keys.map (fun k =>
    let g := l.filter (fun p => p.1 = k)
    { cliente := k
      tpv_Total := sumCells (g.map (fun p => p.2.1))
      markup_Medio := meanCells (g.map (fun p => p.2.2))
      registros := countNonNa (g.map (fun p => p.1)) })

/-- The function `compute_summary(df)` from `utils.py` lines 93-101. -/
def compute_summary (df : Frame) : Except String (List SummaryRow) := do
  let cli ← getCol df "Cliente"
  let tpv ← getCol df "Tpv"
  let mk ← getCol df "Markup"
  pure (summarize (cli.zip (tpv.zip mk)))

def monthOf : Cell → Option (Nat × Nat)
  | .date y m _ => some (y, m)
  | _ => none

/-- Chronological order on `(year, month)` keys, the ascending key order
`groupby` gives the time series. -/
def monthLe (a b : Nat × Nat) : Prop :=
  a.1 < b.1 ∨ (a.1 = b.1 ∧ a.2 ≤ b.2)

instance : DecidableRel monthLe :=
  fun _ _ => inferInstanceAs (Decidable (_ ∨ _))

instance : IsTotal (Nat × Nat) monthLe :=
  ⟨by intro x y; unfold monthLe; omega⟩

instance : IsTrans (Nat × Nat) monthLe :=
  ⟨by intro x y z; unfold monthLe; omega⟩

/-- One bucket of the Monthly Time Series. -/
structure MonthRow where
  anoMes : Nat × Nat
  tpv_Total : Rat
  markup_Medio : Option Rat
deriving Repr, DecidableEq

/-- The per-column computation of the time-series block of
`process_data.py` lines 71-80: drop the rows with missing `Data`, truncate
each date to its calendar month, group by month with keys ascending,
aggregate `Tpv` by sum and `Markup` by mean. -/
def monthlyCore (dataCol tpvCol mkCol : List Cell) : Except String (Option (List MonthRow)) :=
  let rows := dataCol.zip (tpvCol.zip mkCol)
  let kept := rows.filter (fun p => ¬ p.1 = Cell.na)
  if kept.isEmpty then .ok none
  else if kept.all (fun p => (monthOf p.1).isSome) then
    let keyed := kept.filterMap (fun p => (monthOf p.1).map (fun k => (k, p.2)))
    let keys := List.insertionSort monthLe (keyed.map (fun p => p.1)).dedup
    .ok (some (keys.map (fun k =>
      let g := keyed.filter (fun p => p.1 = k)
      { anoMes := k
        tpv_Total := sumCells (g.map (fun p => p.2.1))
        markup_Medio := meanCells (g.map (fun p => p.2.2)) })))
  else .error "pandas: dt accessor on non-datetime values"

/-- Lines 71-80 of `process_data.py`: the Monthly Time Series is computed
only when a `Data` column exists; `none` means no series is produced (no
`Data` column, or every `Data` value missing); the `dt` accessor raises
when a surviving `Data` value is not a datetime. -/
def monthly_ts (df : Frame) : Except String (Option (List MonthRow)) :=
  if df.cols.contains "Data" then do
    let dataCol ← getCol df "Data"
    let tpvCol ← getCol df "Tpv"
    let mkCol ← getCol df "Markup"
    monthlyCore dataCol tpvCol mkCol
  else pure none

/-! ### Character-level facts about the Python `title` normalization -/

theorem toNat_upChar_of (c : Char) (h : 97 ≤ c.toNat ∧ c.toNat ≤ 122) :
    (upChar c).toNat = c.toNat - 32 := by
  simp only [upChar, dif_pos h]
  rfl

theorem upChar_eq_of_not (c : Char) (h : ¬ (97 ≤ c.toNat ∧ c.toNat ≤ 122)) :
    upChar c = c :=
  dif_neg h

theorem toNat_downChar_of (c : Char) (h : 65 ≤ c.toNat ∧ c.toNat ≤ 90) :
    (downChar c).toNat = c.toNat + 32 := by
  simp only [downChar, dif_pos h]
  rfl

theorem downChar_eq_of_not (c : Char) (h : ¬ (65 ≤ c.toNat ∧ c.toNat ≤ 90)) :
    downChar c = c :=
  dif_neg h

theorem isAlphaChar_upChar (c : Char) : isAlphaChar (upChar c) = isAlphaChar c := by
  by_cases h : 97 ≤ c.toNat ∧ c.toNat ≤ 122
  · have ht := toNat_upChar_of c h
    simp only [isAlphaChar, ht]
    exact decide_eq_decide.mpr (by omega)
  · rw [upChar_eq_of_not c h]

theorem isAlphaChar_downChar (c : Char) : isAlphaChar (downChar c) = isAlphaChar c := by
  by_cases h : 65 ≤ c.toNat ∧ c.toNat ≤ 90
  · have ht := toNat_downChar_of c h
    simp only [isAlphaChar, ht]
    exact decide_eq_decide.mpr (by omega)
  · rw [downChar_eq_of_not c h]

theorem upChar_upChar (c : Char) : upChar (upChar c) = upChar c := by
  by_cases h : 97 ≤ c.toNat ∧ c.toNat ≤ 122
  · have ht := toNat_upChar_of c h
    exact upChar_eq_of_not _ (by omega)
  · simp only [upChar_eq_of_not c h]

theorem downChar_downChar (c : Char) : downChar (downChar c) = downChar c := by
  by_cases h : 65 ≤ c.toNat ∧ c.toNat ≤ 90
  · have ht := toNat_downChar_of c h
    exact downChar_eq_of_not _ (by omega)
  · simp only [downChar_eq_of_not c h]

theorem isAlphaChar_titleChar (b : Bool) (c : Char) :
    isAlphaChar (titleChar b c) = isAlphaChar c := by
  unfold titleChar
  by_cases ha : isAlphaChar c
  · cases b <;> simp [ha, isAlphaChar_upChar, isAlphaChar_downChar]
  · simp [ha]

theorem titleChar_titleChar (b : Bool) (c : Char) :
    titleChar b (titleChar b c) = titleChar b c := by
  unfold titleChar
  by_cases ha : isAlphaChar c
  · cases b <;>
      simp [ha, isAlphaChar_upChar, isAlphaChar_downChar, upChar_upChar, downChar_downChar]
  · simp [ha]

theorem pyTitleAux_idem (l : List Char) : ∀ b, pyTitleAux b (pyTitleAux b l) = pyTitleAux b l := by
  induction l with
  | nil => intro b; rfl
  | cons c cs ih =>
    intro b
    simp only [pyTitleAux]
    rw [titleChar_titleChar, isAlphaChar_titleChar, ih]

/-- Python `str.title` is idempotent (on the modelled character range). -/
theorem pyTitle_idem (s : String) : pyTitle (pyTitle s) = pyTitle s :=
  congrArg String.mk (pyTitleAux_idem s.data false)

theorem pyTitle_normName (c : String) : pyTitle (normName c) = normName c :=
  pyTitle_idem (pyStrip c)

/-- After the rename of line 54, re-title-casing the column names (as the
checks of lines 58 and 63 do) changes nothing, so a required name found in
the re-titled set is a genuine column label. -/
theorem mem_of_mem_map_pyTitle {cols : List String} {r : String}
    (h : r ∈ (cols.map normName).map pyTitle) : r ∈ cols.map normName := by
  rcases List.mem_map.mp h with ⟨x, hx, hxr⟩
  rcases List.mem_map.mp hx with ⟨c, hc, hcx⟩
  subst hcx
  rw [pyTitle_normName] at hxr
  exact hxr ▸ hx

/-! ### Shared facts about column selection and per-file processing -/

theorem getCol_ok_iff (df : Frame) (c : String) (col : List Cell) :
    getCol df c = .ok col ↔
      ∃ i, df.cols.count c = 1 ∧ df.cols.indexOf? c = some i ∧
        col = df.rows.map (fun r => r.getD i Cell.na) := by
  constructor
  · intro h
    unfold getCol at h
    split at h
    · split at h
      · next i heq => exact ⟨i, by assumption, heq, (Except.ok.inj h).symm⟩
      · exact absurd h (by simp)
    · split at h <;> exact absurd h (by simp)
  · rintro ⟨i, h1, h2, h3⟩
    unfold getCol
    rw [if_pos h1, h2, h3]

theorem setCol_ok_iff (df : Frame) (c : String) (f : Cell → Cell) (df2 : Frame) :
    setCol df c f = .ok df2 ↔
      ∃ i, df.cols.count c = 1 ∧ df.cols.indexOf? c = some i ∧
        df2 = { df with rows := df.rows.map (fun r => r.set i (f (r.getD i Cell.na))) } := by
  constructor
  · intro h
    unfold setCol at h
    split at h
    · split at h
      · next i heq => exact ⟨i, by assumption, heq, (Except.ok.inj h).symm⟩
      · exact absurd h (by simp)
    · split at h <;> exact absurd h (by simp)
  · rintro ⟨i, h1, h2, h3⟩
    unfold setCol
    rw [if_pos h1, h2, h3]

theorem setCol_cols {df : Frame} {c : String} {f : Cell → Cell} {df2 : Frame}
    (h : setCol df c f = .ok df2) : df2.cols = df.cols := by
  rcases (setCol_ok_iff df c f df2).mp h with ⟨i, _, _, h3⟩
  rw [h3]

theorem setCol_rows_map {df : Frame} {c : String} {f : Cell → Cell} {df2 : Frame}
    (h : setCol df c f = .ok df2) :
    ∃ g : List Cell → List Cell, df2.rows = df.rows.map g := by
  rcases (setCol_ok_iff df c f df2).mp h with ⟨i, _, _, h3⟩
  exact ⟨_, by rw [h3]⟩

theorem indexOf?_isSome_of_count_one {l : List String} {c : String}
    (h : l.count c = 1) : ∃ i, l.indexOf? c = some i := by
  have hmem : c ∈ l := by
    have : 0 < l.count c := by omega
    exact List.count_pos_iff.mp this
  cases hidx : l.indexOf? c with
  | some i => exact ⟨i, rfl⟩
  | none =>
    exfalso
    exact (List.indexOf?_eq_none_iff.mp hidx c hmem) (by simp)

theorem setCol_ok_of_count_one (df : Frame) (c : String) (f : Cell → Cell)
    (h : df.cols.count c = 1) : ∃ df2, setCol df c f = .ok df2 := by
  rcases indexOf?_isSome_of_count_one h with ⟨i, hi⟩
  exact ⟨_, (setCol_ok_iff df c f _).mpr ⟨i, h, hi, rfl⟩⟩

theorem setCol_err_of_count_ne_one (df : Frame) (c : String) (f : Cell → Cell)
    (h : ¬ df.cols.count c = 1) : ∃ m, setCol df c f = .error m := by
  unfold setCol
  rw [if_neg h]
  split <;> exact ⟨_, rfl⟩

theorem normalizeFrame_cols (t : Frame) : (normalizeFrame t).cols = t.cols.map normName := rfl

theorem normalizeFrame_rows (t : Frame) : (normalizeFrame t).rows = t.rows := rfl

theorem processTable_ok {name : String} {t : Frame} {f : Frame}
    (h : processTable name t = Outcome.ok f) :
    requiredOk (t.cols.map normName) = true ∧ f.cols = t.cols.map normName ∧
      ∃ g : List Cell → List Cell, f.rows = t.rows.map g := by
  unfold processTable at h
  by_cases hreq : requiredOk (normalizeFrame t).cols
  · rw [if_neg (by simp [hreq])] at h
    refine ⟨by rw [← normalizeFrame_cols]; exact hreq, ?_⟩
    split at h
    · exact absurd h (by simp)
    · next df1 hs1 =>
      split at h
      · exact absurd h (by simp)
      · next df2 hs2 =>
        split at h
        · exact absurd h (by simp)
        · next df3 hs3 =>
          have hf : df3 = f := Outcome.ok.inj h
          subst hf
          have hcols1 : df1.cols = (normalizeFrame t).cols := by
            by_cases hd : ((normalizeFrame t).cols.map pyTitle).contains "Data"
            · rw [if_pos hd] at hs1; exact setCol_cols hs1
            · rw [if_neg hd] at hs1; cases hs1; rfl
          have hrows1 : ∃ g : List Cell → List Cell,
              df1.rows = (normalizeFrame t).rows.map g := by
            by_cases hd : ((normalizeFrame t).cols.map pyTitle).contains "Data"
            · rw [if_pos hd] at hs1; exact setCol_rows_map hs1
            · rw [if_neg hd] at hs1; cases hs1; exact ⟨id, by simp⟩
          constructor
          · rw [setCol_cols hs3, setCol_cols hs2, hcols1, normalizeFrame_cols]
          · rcases hrows1 with ⟨g1, hg1⟩
            rcases setCol_rows_map hs2 with ⟨g2, hg2⟩
            rcases setCol_rows_map hs3 with ⟨g3, hg3⟩
            refine ⟨g3 ∘ g2 ∘ g1, ?_⟩
            rw [hg3, hg2, hg1, normalizeFrame_rows, List.map_map, List.map_map]
            rfl
  · rw [if_pos (by simp [hreq])] at h
    exact absurd h (by simp)

/-- The success of the per-file normalization/coercion steps depends only on
the column names, never on the cell values. -/
def tableOkCond (cols : List String) : Prop :=
  requiredOk (cols.map normName) = true ∧
    (((cols.map normName).map pyTitle).contains "Data" = true →
      (cols.map normName).count "Data" = 1) ∧
    (cols.map normName).count "Tpv" = 1 ∧
    (cols.map normName).count "Markup" = 1

theorem processTable_ok_iff (name : String) (cols : List String) (rows : List (List Cell)) :
    (∃ f, processTable name ⟨cols, rows⟩ = Outcome.ok f) ↔ tableOkCond cols := by
  constructor
  · rintro ⟨f, h⟩
    unfold processTable at h
    by_cases hreq : requiredOk (normalizeFrame (⟨cols, rows⟩ : Frame)).cols
    · rw [if_neg (by simp [hreq])] at h
      split at h
      · exact absurd h (by simp)
      · next df1 hs1 =>
        split at h
        · exact absurd h (by simp)
        · next df2 hs2 =>
          split at h
          · exact absurd h (by simp)
          · next df3 hs3 =>
            have hcols1 : df1.cols = cols.map normName := by
              by_cases hd : (((⟨cols, rows⟩ : Frame).cols.map normName).map pyTitle).contains "Data"
              · rw [if_pos (by exact hd)] at hs1
                exact setCol_cols hs1
              · rw [if_neg (by exact hd)] at hs1
                cases hs1; rfl
            refine ⟨hreq, ?_, ?_, ?_⟩
            · intro hd
              rw [if_pos (by exact hd)] at hs1
              rcases (setCol_ok_iff _ _ _ _).mp hs1 with ⟨i, hcount, _, _⟩
              exact hcount
            · rcases (setCol_ok_iff _ _ _ _).mp hs2 with ⟨i, hcount, _, _⟩
              rw [hcols1] at hcount
              exact hcount
            · rcases (setCol_ok_iff _ _ _ _).mp hs3 with ⟨i, hcount, _, _⟩
              rw [setCol_cols hs2, hcols1] at hcount
              exact hcount
    · rw [if_pos (by simp [hreq])] at h
      exact absurd h (by simp)
  · rintro ⟨hreq, hdata, htpv, hmk⟩
    unfold processTable
    rw [if_neg (by simp [normalizeFrame_cols, hreq])]
    have hstep1 : ∃ df1, (if (((normalizeFrame (⟨cols, rows⟩ : Frame)).cols.map pyTitle).contains "Data") then
        setCol (normalizeFrame ⟨cols, rows⟩) "Data" cellToDatetime
      else Except.ok (normalizeFrame ⟨cols, rows⟩)) = Except.ok df1 ∧
        df1.cols = cols.map normName := by
      by_cases hd : (((cols.map normName).map pyTitle).contains "Data" : Bool)
      · rw [if_pos (by exact hd)]
        rcases setCol_ok_of_count_one (normalizeFrame ⟨cols, rows⟩) "Data" cellToDatetime
          (by exact hdata hd) with ⟨df1, h1⟩
        exact ⟨df1, h1, by rw [setCol_cols h1]; rfl⟩
      · rw [if_neg (by exact hd)]
        exact ⟨_, rfl, rfl⟩
    rcases hstep1 with ⟨df1, h1, hc1⟩
    rw [h1]
    dsimp only
    rcases setCol_ok_of_count_one df1 "Tpv" cellToNumeric (by rw [hc1]; exact htpv) with ⟨df2, h2⟩
    rw [h2]
    dsimp only
    rcases setCol_ok_of_count_one df2 "Markup" cellToNumeric
      (by rw [setCol_cols h2, hc1]; exact hmk) with ⟨df3, h3⟩
    rw [h3]
    exact ⟨df3, rfl⟩

theorem processTable_ok_len {name : String} {t f : Frame}
    (h : processTable name t = Outcome.ok f) : f.rows.length = t.rows.length := by
  rcases (processTable_ok h).2.2 with ⟨g, hg⟩
  rw [hg, List.length_map]

theorem processTable_err_pandas {name : String} {t : Frame} {er : LoadErr}
    (h : processTable name t = Outcome.err er) : ∃ m, er = LoadErr.pandasErr m := by
  unfold processTable at h
  by_cases hreq : requiredOk (normalizeFrame t).cols
  · rw [if_neg (by simp [hreq])] at h
    split at h
    · exact ⟨_, (Outcome.err.inj h).symm⟩
    · split at h
      · exact ⟨_, (Outcome.err.inj h).symm⟩
      · split at h
        · exact ⟨_, (Outcome.err.inj h).symm⟩
        · exact absurd h (by simp)
  · rw [if_pos (by simp [hreq])] at h
    exact absurd h (by simp)

theorem processEntry_err_pandas {n : String} {e : Entry} {er : LoadErr}
    (h : processEntry n e = Outcome.err er) : ∃ m, er = LoadErr.pandasErr m := by
  unfold processEntry at h
  split at h
  · exact absurd h (by simp)
  · split at h
    · exact absurd h (by simp)
    · split at h
      · split at h
        · exact absurd h (by simp)
        · exact processTable_err_pandas h
      · exact absurd h (by simp)

theorem runEntries_ok {L : List (String × Entry)} {ds : List String} {fs : List Frame}
    (h : runEntries L = (ds, .ok fs)) :
    fs = L.flatMap entryFrames ∧ ds = L.flatMap entryDiags ∧
      ∀ e ∈ L, ∀ er, processEntry e.1 e.2 ≠ Outcome.err er := by
  induction L generalizing ds fs with
  | nil =>
    cases h
    exact ⟨rfl, rfl, by intro e he; cases he⟩
  | cons e rest ih =>
    unfold runEntries at h
    rcases hp : processEntry e.1 e.2 with ds0 | f | er
    · rw [hp] at h
      rcases hr : runEntries rest with ⟨ds1, r2⟩
      rw [hr] at h
      dsimp only at h
      have hds : ds = ds0 ++ ds1 := (congrArg Prod.fst h).symm
      have hr2 : r2 = .ok fs := congrArg Prod.snd h
      rw [hr2] at hr
      rcases ih hr with ⟨h1, h2, h3⟩
      refine ⟨?_, ?_, ?_⟩
      · rw [List.flatMap_cons, h1]
        have : entryFrames e = [] := by unfold entryFrames; rw [hp]
        rw [this, List.nil_append]
      · rw [List.flatMap_cons, ← h2, hds]
        have : entryDiags e = ds0 := by unfold entryDiags; rw [hp]
        rw [this]
      · intro x hx er
        rcases List.mem_cons.mp hx with hx | hx
        · subst hx; rw [hp]; simp
        · exact h3 x hx er
    · rw [hp] at h
      rcases hr : runEntries rest with ⟨ds1, r2⟩
      rw [hr] at h
      dsimp only at h
      have hds : ds = ds1 := (congrArg Prod.fst h).symm
      have hr2 : Except.map (fun fs => f :: fs) r2 = .ok fs := congrArg Prod.snd h
      rcases r2 with m | fs1
      · exact absurd hr2 (by simp [Except.map])
      · have hfs : f :: fs1 = fs := by simpa [Except.map] using hr2
        rw [← hfs] at *
        rcases ih hr with ⟨h1, h2, h3⟩
        refine ⟨?_, ?_, ?_⟩
        · rw [List.flatMap_cons, h1]
          have : entryFrames e = [f] := by unfold entryFrames; rw [hp]
          rw [this]; rfl
        · rw [List.flatMap_cons, ← h2, hds]
          have : entryDiags e = [] := by unfold entryDiags; rw [hp]
          rw [this, List.nil_append]
        · intro x hx er
          rcases List.mem_cons.mp hx with hx | hx
          · subst hx; rw [hp]; simp
          · exact h3 x hx er
    · rw [hp] at h
      dsimp only at h
      exact absurd (congrArg Prod.snd h) (by simp)

theorem runEntries_error_ne_noValid {L : List (String × Entry)} {ds : List String}
    {er : LoadErr} (h : runEntries L = (ds, .error er)) : er ≠ LoadErr.noValidData := by
  induction L generalizing ds with
  | nil => cases h
  | cons e rest ih =>
    unfold runEntries at h
    rcases hp : processEntry e.1 e.2 with ds0 | f | er1
    · rw [hp] at h
      rcases hr : runEntries rest with ⟨ds1, r2⟩
      rw [hr] at h
      dsimp only at h
      have hr2 : r2 = .error er := congrArg Prod.snd h
      rw [hr2] at hr
      exact ih hr
    · rw [hp] at h
      rcases hr : runEntries rest with ⟨ds1, r2⟩
      rw [hr] at h
      dsimp only at h
      have hr2 : Except.map (fun fs => f :: fs) r2 = .error er := congrArg Prod.snd h
      rcases r2 with m | fs1
      · have : m = er := by simpa [Except.map] using hr2
        rw [this] at hr
        exact ih hr
      · exact absurd hr2 (by simp [Except.map])
    · rw [hp] at h
      dsimp only at h
      have : er1 = er := Except.error.inj (congrArg Prod.snd h)
      rcases processEntry_err_pandas hp with ⟨m, hm⟩
      rw [← this, hm]
      simp

theorem load_data_ok {L : List (String × Entry)} {ds : List String} {F : Frame}
    (h : load_data L = (ds, .ok F)) :
    ∃ fs, runEntries (sortByName L) = (ds, .ok fs) ∧ fs ≠ [] ∧ F = concatFrames fs := by
  unfold load_data at h
  rcases hr : runEntries (sortByName L) with ⟨ds1, r2⟩
  rw [hr] at h
  dsimp only at h
  rcases r2 with m | fs0
  · exact absurd (congrArg Prod.snd h) (by simp)
  · rcases fs0 with _ | ⟨f, fs1⟩
    · exact absurd (congrArg Prod.snd h) (by simp)
    · have hds : ds1 = ds := congrArg Prod.fst h
      have hF : F = concatFrames (f :: fs1) := (Except.ok.inj (congrArg Prod.snd h)).symm
      exact ⟨f :: fs1, by rw [hds], by simp, hF⟩

theorem concatFrames_rows (fs : List Frame) :
    (concatFrames fs).rows
      = fs.flatMap (fun f => f.rows.map (alignRow (concatFrames fs).cols f.cols)) := rfl

theorem mem_concat_cols_aux (c : String) (fs : List Frame) :
    ∀ acc : List String, (c ∈ acc ∨ ∃ f ∈ fs, c ∈ f.cols) →
      c ∈ fs.foldl (fun acc f => acc ++ f.cols.filter (fun x => ¬ x ∈ acc)) acc := by
  induction fs with
  | nil =>
    intro acc h
    rcases h with h | ⟨f, hf, _⟩
    · exact h
    · cases hf
  | cons g gs ih =>
    intro acc h
    rw [List.foldl_cons]
    apply ih
    rcases h with hacc | ⟨f, hf, hc⟩
    · exact Or.inl (List.mem_append_left _ hacc)
    · rcases List.mem_cons.mp hf with rfl | hf2
      · by_cases hin : c ∈ acc
        · exact Or.inl (List.mem_append_left _ hin)
        · exact Or.inl (List.mem_append_right _
            (List.mem_filter.mpr ⟨hc, decide_eq_true hin⟩))
      · exact Or.inr ⟨f, hf2, hc⟩

theorem mem_concatFrames_cols {fs : List Frame} {f : Frame} {c : String}
    (hf : f ∈ fs) (hc : c ∈ f.cols) : c ∈ (concatFrames fs).cols :=
  mem_concat_cols_aux c fs [] (Or.inr ⟨f, hf, hc⟩)

theorem compute_summary_eq {df : Frame} {cli tpv mk : List Cell}
    (hc : getCol df "Cliente" = .ok cli) (ht : getCol df "Tpv" = .ok tpv)
    (hm : getCol df "Markup" = .ok mk) :
    compute_summary df = .ok (summarize (cli.zip (tpv.zip mk))) := by
  unfold compute_summary
  rw [hc, ht, hm]
  rfl

theorem keys_mem_iff {l : List (Cell × Cell × Cell)} {k : Cell} :
    k ∈ (l.filterMap (fun p => if p.1 = Cell.na then none else some p.1)).dedup ↔
      (k ≠ Cell.na ∧ ∃ p ∈ l, p.1 = k) := by
  rw [List.mem_dedup, List.mem_filterMap]
  constructor
  · rintro ⟨p, hp, hif⟩
    by_cases hna : p.1 = Cell.na
    · rw [if_pos hna] at hif
      cases hif
    · rw [if_neg hna] at hif
      have hk := Option.some.inj hif
      exact ⟨hk ▸ hna, p, hp, hk⟩
  · rintro ⟨hk, p, hp, hpk⟩
    exact ⟨p, hp, by rw [hpk, if_neg hk]⟩

theorem sumCells_map_snd_fst (g : List (Cell × Cell × Cell)) :
    sumCells (g.map (fun p => p.2.1)) = (g.filterMap (fun p => numOf p.2.1)).sum := by
  unfold sumCells
  rw [List.filterMap_map]
  rfl

theorem meanCells_map_snd_snd (g : List (Cell × Cell × Cell)) :
    meanCells (g.map (fun p => p.2.2)) =
      (if (g.filterMap (fun p => numOf p.2.2)).isEmpty then none
        else some ((g.filterMap (fun p => numOf p.2.2)).sum
          / ((g.filterMap (fun p => numOf p.2.2)).length : Rat))) := by
  unfold meanCells
  rw [List.filterMap_map]
  rfl

theorem countNonNa_map_fst_of_key {g : List (Cell × Cell × Cell)} {k : Cell}
    (hk : k ≠ Cell.na) (hall : ∀ p ∈ g, p.1 = k) :
    countNonNa (g.map (fun p => p.1)) = g.length := by
  unfold countNonNa
  have hself : (g.map (fun p => p.1)).filter (fun c => decide ¬ c = Cell.na)
      = g.map (fun p => p.1) := by
    apply List.filter_eq_self.mpr
    intro a ha
    rcases List.mem_map.mp ha with ⟨p, hp, hpa⟩
    rw [← hpa, hall p hp]
    exact decide_eq_true hk
  rw [hself, List.length_map]

theorem processEntry_ok_table {n : String} {e : Entry} {f : Frame}
    (h : processEntry n e = Outcome.ok f) : ∃ t, processTable n t = Outcome.ok f := by
  unfold processEntry at h
  split at h
  · exact absurd h (by simp)
  · split at h
    · exact absurd h (by simp)
    · split at h
      · split at h
        · exact absurd h (by simp)
        · exact ⟨_, h⟩
      · exact absurd h (by simp)

theorem requiredOk_mem {cols : List String} (h : requiredOk cols = true) :
    "Cliente" ∈ cols.map pyTitle ∧ "Tpv" ∈ cols.map pyTitle ∧ "Markup" ∈ cols.map pyTitle := by
  unfold requiredOk at h
  rw [List.all_eq_true] at h
  have h1 := h "Cliente" (by simp)
  have h2 := h "Tpv" (by simp)
  have h3 := h "Markup" (by simp)
  exact ⟨List.elem_iff.mp h1, List.elem_iff.mp h2, List.elem_iff.mp h3⟩

/-- Claim C7: for every parsed file (any name, any table) that is supported,
not tilde-skipped, and whose normalized column names do not include all of
`Cliente`, `Tpv`, `Markup`, the loader keeps zero rows of it (it contributes
no frame to `all_frames`) and prints exactly one diagnostic for it. -/
theorem claim_C7 (name : String) (t : Frame)
    (htil : startsWithTilde name = false)
    (hext : supportedExt (lowerStr (splitextExt name)) = true)
    (hreq : requiredOk (t.cols.map normName) = false) :
    entryFrames (name, Entry.file (Except.ok t)) = [] ∧
      entryDiags (name, Entry.file (Except.ok t)) =
        ["Arquivo " ++ name ++ " ignorado: colunas necessárias não encontradas"] := by
  have hp : processEntry name (Entry.file (Except.ok t)) =
      Outcome.skip ["Arquivo " ++ name ++ " ignorado: colunas necessárias não encontradas"] := by
    unfold processEntry
    rw [if_neg (by simp [htil])]
    dsimp only
    rw [if_pos hext]
    unfold processTable
    rw [if_pos (by simp [normalizeFrame_cols, hreq])]
  constructor
  · unfold entryFrames
    rw [hp]
  · unfold entryDiags
    rw [hp]

theorem claim_C7_witness :
    (startsWithTilde "bad.csv" = false ∧
       supportedExt (lowerStr (splitextExt "bad.csv")) = true ∧
       requiredOk ((["Cliente", "Foo"] : List String).map normName) = false) ∧
      (entryFrames ("bad.csv", Entry.file (Except.ok ⟨["Cliente", "Foo"],
          [[Cell.str "x", Cell.num 1]]⟩)) = [] ∧
        entryDiags ("bad.csv", Entry.file (Except.ok ⟨["Cliente", "Foo"],
          [[Cell.str "x", Cell.num 1]]⟩)) =
          ["Arquivo " ++ "bad.csv" ++ " ignorado: colunas necessárias não encontradas"]) :=
  ⟨⟨by decide, by decide, by decide⟩,
    claim_C7 "bad.csv" ⟨["Cliente", "Foo"], [[Cell.str "x", Cell.num 1]]⟩
      (by decide) (by decide) (by decide)⟩

/-- Claim C8: value coercion is total and per-cell.  For a retained file
every row is kept (same row count); whether a file is retained does not
depend on any cell value (only on its header); a string that fails numeric
parsing coerces to missing rather than raising; and the coercion function
can only produce a number or a missing value — it has no failure outcome. -/
theorem claim_C8 (name : String) (cols : List String) (rows rows2 : List (List Cell))
    (f : Frame) (h : processTable name ⟨cols, rows⟩ = Outcome.ok f) :
    f.rows.length = rows.length ∧
      (∃ f2, processTable name ⟨cols, rows2⟩ = Outcome.ok f2 ∧
        f2.rows.length = rows2.length) ∧
      (∀ s, parseNumStr s = none → cellToNumeric (Cell.str s) = Cell.na) ∧
      (∀ c, cellToNumeric c = Cell.na ∨ ∃ q, cellToNumeric c = Cell.num q) := by
  refine ⟨processTable_ok_len h, ?_, ?_, ?_⟩
  · have hcond : tableOkCond cols := (processTable_ok_iff name cols rows).mp ⟨f, h⟩
    rcases (processTable_ok_iff name cols rows2).mpr hcond with ⟨f2, h2⟩
    exact ⟨f2, h2, processTable_ok_len h2⟩
  · intro s hs
    simp [cellToNumeric, hs]
  · intro c
    cases c with
    | na => exact Or.inl rfl
    | str s =>
      cases hp : parseNumStr s with
      | none => exact Or.inl (by simp [cellToNumeric, hp])
      | some q => exact Or.inr ⟨q, by simp [cellToNumeric, hp]⟩
    | num q => exact Or.inr ⟨q, rfl⟩
    | date y m d => exact Or.inl rfl

theorem claim_C8_witness :
    processTable "a.csv" ⟨["Cliente", "Tpv", "Markup"],
        [[Cell.str "x", Cell.str "abc", Cell.na]]⟩
      = Outcome.ok ⟨["Cliente", "Tpv", "Markup"], [[Cell.str "x", Cell.na, Cell.na]]⟩ ∧
    ((⟨["Cliente", "Tpv", "Markup"], [[Cell.str "x", Cell.na, Cell.na]]⟩ : Frame).rows.length
        = [[Cell.str "x", Cell.str "abc", Cell.na]].length ∧
      (∃ f2, processTable "a.csv" ⟨["Cliente", "Tpv", "Markup"],
          [[Cell.na, Cell.na, Cell.na], [Cell.na, Cell.na, Cell.na]]⟩ = Outcome.ok f2 ∧
        f2.rows.length = [[Cell.na, Cell.na, Cell.na], [Cell.na, Cell.na, Cell.na]].length) ∧
      (∀ s, parseNumStr s = none → cellToNumeric (Cell.str s) = Cell.na) ∧
      (∀ c, cellToNumeric c = Cell.na ∨ ∃ q, cellToNumeric c = Cell.num q)) :=
  ⟨by decide,
    claim_C8 "a.csv" ["Cliente", "Tpv", "Markup"]
      [[Cell.str "x", Cell.str "abc", Cell.na]]
      [[Cell.na, Cell.na, Cell.na], [Cell.na, Cell.na, Cell.na]]
      ⟨["Cliente", "Tpv", "Markup"], [[Cell.str "x", Cell.na, Cell.na]]⟩ (by decide)⟩

/-- The one-file directory refuting claim C1: a CSV parses fine, has all
three required columns, and its single row has a missing `Cliente` value. -/
def C1listing : List (String × Entry) :=
  [("a.csv", Entry.file (Except.ok ⟨["Cliente", "Tpv", "Markup"],
    [[Cell.na, Cell.num 1, Cell.num 2]]⟩))]

def C1frame : Frame :=
  ⟨["Cliente", "Tpv", "Markup"], [[Cell.na, Cell.num 1, Cell.num 2]]⟩

/-- Claim C1 as stated is false: `load_data` returns successfully on
`C1listing`, yet the returned Consolidated Dataset has a row whose `Cliente`
value is missing — `load_data` checks only that the `Cliente` column exists,
never that its values are non-missing. -/
theorem claim_C1_counterexample :
    (load_data C1listing).2 = Except.ok C1frame ∧
      getCol C1frame "Cliente" = Except.ok [Cell.na] ∧
      ¬ (∀ col, getCol C1frame "Cliente" = Except.ok col → ∀ v ∈ col, v ≠ Cell.na) := by
  refine ⟨by decide, by decide, fun h => ?_⟩
  exact h [Cell.na] (by decide) Cell.na (by decide) rfl

/-- Claim C1 (amended): whenever `load_data` returns successfully, the
`Cliente`, `Tpv` and `Markup` columns are all present in the Consolidated
Dataset; any of the three values of a row, `Cliente` included, may
individually be missing. -/
theorem claim_C1_amended {L : List (String × Entry)} {ds : List String} {F : Frame}
    (h : load_data L = (ds, Except.ok F)) :
    "Cliente" ∈ F.cols ∧ "Tpv" ∈ F.cols ∧ "Markup" ∈ F.cols := by
  rcases load_data_ok h with ⟨fs, hrun, hne, hF⟩
  rcases runEntries_ok hrun with ⟨hfs, _, _⟩
  have hcols : ∀ f ∈ fs, "Cliente" ∈ f.cols ∧ "Tpv" ∈ f.cols ∧ "Markup" ∈ f.cols := by
    intro f hfmem
    rw [hfs] at hfmem
    rcases List.mem_flatMap.mp hfmem with ⟨e, he, hfe⟩
    unfold entryFrames at hfe
    rcases hp : processEntry e.1 e.2 with ds0 | f0 | er
    · rw [hp] at hfe; cases hfe
    · rw [hp] at hfe
      have hff : f = f0 := by simpa using hfe
      subst hff
      rcases processEntry_ok_table hp with ⟨t, ht⟩
      rcases processTable_ok ht with ⟨hreq, hfc, _⟩
      rcases requiredOk_mem hreq with ⟨m1, m2, m3⟩
      rw [hfc]
      exact ⟨mem_of_mem_map_pyTitle m1, mem_of_mem_map_pyTitle m2,
        mem_of_mem_map_pyTitle m3⟩
    · rw [hp] at hfe; cases hfe
  rcases List.exists_mem_of_ne_nil fs hne with ⟨f, hf⟩
  rcases hcols f hf with ⟨m1, m2, m3⟩
  rw [hF]
  exact ⟨mem_concatFrames_cols hf m1, mem_concatFrames_cols hf m2,
    mem_concatFrames_cols hf m3⟩

theorem claim_C1_amended_witness :
    load_data C1listing = ([], Except.ok C1frame) ∧
      ("Cliente" ∈ C1frame.cols ∧ "Tpv" ∈ C1frame.cols ∧ "Markup" ∈ C1frame.cols) :=
  ⟨by decide, @claim_C1_amended C1listing [] C1frame (by decide)⟩

/-- A directory refuting claim C6: one CSV whose headers `"Tpv"` and
`" tpv"` both normalize to `Tpv`, so the frame has a duplicated `Tpv` label
and `pd.to_numeric(df["Tpv"])` — outside the per-file `try` — raises. -/
def C6dupListing : List (String × Entry) :=
  [("a.csv", Entry.file (Except.ok ⟨["Cliente", "Tpv", " tpv", "Markup"],
    [[Cell.str "X", Cell.num 1, Cell.num 1, Cell.num 2]]⟩))]

def C6okListing : List (String × Entry) :=
  [("b.csv", Entry.file (Except.ok ⟨["Cliente", "Tpv", "Markup"],
    [[Cell.str "A", Cell.na, Cell.na]]⟩))]

/-- Claim C6 as stated is false: on `C6dupListing` zero files load
successfully, yet the escaping exception is the pandas duplicated-label
error, not the "no valid data" error, so the stated "if and only if" and the
"no other exception escapes" part both fail. -/
theorem claim_C6_counterexample :
    (load_data C6dupListing).2 = Except.error (LoadErr.pandasErr "pandas: duplicated label Tpv") ∧
      LoadErr.pandasErr "pandas: duplicated label Tpv" ≠ LoadErr.noValidData :=
  ⟨by decide, by decide⟩

/-- Claim C6 (amended): `load_data` raises the "no valid data" error exactly
when the directory scan completes with zero successfully loaded files; when
the scan completes with at least one loaded file, `load_data` returns the
consolidated frame.  (A file whose normalized header duplicates a required
label instead makes a pandas exception escape, interrupting the scan.) -/
theorem claim_C6_amended (L : List (String × Entry)) :
    ((load_data L).2 = Except.error LoadErr.noValidData ↔
      (runEntries (sortByName L)).2 = Except.ok ([] : List Frame)) ∧
    (∀ fs : List Frame, (runEntries (sortByName L)).2 = Except.ok fs → fs ≠ [] →
      ∃ F, (load_data L).2 = Except.ok F) := by
  unfold load_data
  rcases hr : runEntries (sortByName L) with ⟨ds1, r2⟩
  dsimp only
  rcases r2 with m | fs0
  · constructor
    · constructor
      · intro h
        have hm : m = LoadErr.noValidData := Except.error.inj h
        exact absurd hm (runEntries_error_ne_noValid hr)
      · intro h
        exact absurd h (by simp)
    · intro fs h
      exact absurd h (by simp)
  · rcases fs0 with _ | ⟨f, fs1⟩
    · exact ⟨by simp, fun fs h hne => absurd (Except.ok.inj h).symm hne⟩
    · constructor
      · constructor
        · intro h; exact absurd h (by simp)
        · intro h; exact absurd h (by simp)
      · intro fs h hne
        exact ⟨concatFrames (f :: fs1), rfl⟩

theorem claim_C6_amended_witness :
    (load_data ([] : List (String × Entry))).2 = Except.error LoadErr.noValidData ∧
      ∃ F, (load_data C6okListing).2 = Except.ok F :=
  ⟨(claim_C6_amended []).1.mpr (by decide),
    (claim_C6_amended C6okListing).2
      [⟨["Cliente", "Tpv", "Markup"], [[Cell.str "A", Cell.na, Cell.na]]⟩]
      (by decide) (by decide)⟩

theorem summary_eq_summarize {df : Frame} {summary : List SummaryRow} {cli tpv mk : List Cell}
    (hs : compute_summary df = Except.ok summary)
    (hc : getCol df "Cliente" = Except.ok cli)
    (ht : getCol df "Tpv" = Except.ok tpv)
    (hm : getCol df "Markup" = Except.ok mk) :
    summary = summarize (cli.zip (tpv.zip mk)) := by
  have h2 := compute_summary_eq hc ht hm
  rw [hs] at h2
  exact Except.ok.inj h2

theorem getCol_len {df : Frame} {c : String} {col : List Cell}
    (h : getCol df c = .ok col) : col.length = df.rows.length := by
  rcases (getCol_ok_iff df c col).mp h with ⟨i, _, _, h3⟩
  rw [h3, List.length_map]

theorem zip3_map_fst {cli tpv mk : List Cell} (h1 : cli.length = tpv.length)
    (h2 : cli.length = mk.length) : (cli.zip (tpv.zip mk)).map Prod.fst = cli := by
  apply List.map_fst_zip
  rw [List.length_zip]
  omega

/-- Claim C2: for every summary row produced by `compute_summary`,
`Tpv_Total` is the sum of the non-missing `Tpv` values of the rows sharing
that `Cliente`, and it is `0` when every such `Tpv` value is missing. -/
theorem claim_C2 (df : Frame) (summary : List SummaryRow) (cli tpv mk : List Cell)
    (hs : compute_summary df = Except.ok summary)
    (hc : getCol df "Cliente" = Except.ok cli)
    (ht : getCol df "Tpv" = Except.ok tpv)
    (hm : getCol df "Markup" = Except.ok mk) :
    ∀ srow ∈ summary,
      srow.tpv_Total =
        (((cli.zip (tpv.zip mk)).filter (fun p => p.1 = srow.cliente)).filterMap
          (fun p => numOf p.2.1)).sum ∧
      ((∀ p ∈ (cli.zip (tpv.zip mk)).filter (fun p => p.1 = srow.cliente),
          numOf p.2.1 = none) → srow.tpv_Total = 0) := by
  have hsum := summary_eq_summarize hs hc ht hm
  intro srow hmem
  rw [hsum] at hmem
  simp only [summarize, List.mem_map] at hmem
  rcases hmem with ⟨k, hk, rfl⟩
  dsimp only
  constructor
  · exact sumCells_map_snd_fst _
  · intro hall
    rw [sumCells_map_snd_fst]
    rw [List.filterMap_eq_nil_iff.mpr hall, List.sum_nil]

/-- Claim C3: for every summary row produced by `compute_summary`,
`Markup_Medio` is the arithmetic mean of the non-missing `Markup` values of
the rows sharing that `Cliente` (missing excluded from numerator and
denominator), and it is missing when every such `Markup` value is missing. -/
theorem claim_C3 (df : Frame) (summary : List SummaryRow) (cli tpv mk : List Cell)
    (hs : compute_summary df = Except.ok summary)
    (hc : getCol df "Cliente" = Except.ok cli)
    (ht : getCol df "Tpv" = Except.ok tpv)
    (hm : getCol df "Markup" = Except.ok mk) :
    ∀ srow ∈ summary, ∀ vals : List Rat,
      vals = ((cli.zip (tpv.zip mk)).filter (fun p => p.1 = srow.cliente)).filterMap
          (fun p => numOf p.2.2) →
        (vals = [] → srow.markup_Medio = none) ∧
        (vals ≠ [] → ∃ q, srow.markup_Medio = some q ∧ (vals.length : Rat) * q = vals.sum) := by
  have hsum := summary_eq_summarize hs hc ht hm
  intro srow hmem vals hvals
  rw [hsum] at hmem
  simp only [summarize, List.mem_map] at hmem
  rcases hmem with ⟨k, hk, rfl⟩
  dsimp only at hvals ⊢
  rw [meanCells_map_snd_snd, ← hvals]
  constructor
  · intro hnil
    rw [if_pos (by rw [hnil]; rfl)]
  · intro hne
    have hlen : (vals.length : Rat) ≠ 0 := by
      have : vals.length ≠ 0 := fun h0 => hne (List.eq_nil_of_length_eq_zero h0)
      exact_mod_cast this
    rw [if_neg (by simpa [List.isEmpty_iff] using hne)]
    refine ⟨vals.sum / (vals.length : Rat), rfl, ?_⟩
    rw [mul_comm]
    exact div_mul_cancel₀ _ hlen

/-- Claim C4: `compute_summary` yields exactly one row per distinct
(non-missing) `Cliente` value occurring in the input, and its `Registros`
counts all input rows sharing that `Cliente`, regardless of missing `Tpv`
or `Markup` values. -/
theorem claim_C4 (df : Frame) (summary : List SummaryRow) (cli tpv mk : List Cell)
    (hs : compute_summary df = Except.ok summary)
    (hc : getCol df "Cliente" = Except.ok cli)
    (ht : getCol df "Tpv" = Except.ok tpv)
    (hm : getCol df "Markup" = Except.ok mk) :
    (summary.map (fun r => r.cliente)).Nodup ∧
    (∀ k : Cell, k ≠ Cell.na → ((∃ srow ∈ summary, srow.cliente = k) ↔ k ∈ cli)) ∧
    (∀ srow ∈ summary, srow.registros = (cli.filter (fun c => c = srow.cliente)).length) := by
  have hsum := summary_eq_summarize hs hc ht hm
  have hlc : cli.length = df.rows.length := getCol_len hc
  have hlt : tpv.length = df.rows.length := getCol_len ht
  have hlm : mk.length = df.rows.length := getCol_len hm
  have hfst : (cli.zip (tpv.zip mk)).map Prod.fst = cli :=
    zip3_map_fst (by omega) (by omega)
  have hmapcli : summary.map (fun r => r.cliente) =
      ((cli.zip (tpv.zip mk)).filterMap
        (fun p => if p.1 = Cell.na then none else some p.1)).dedup := by
    rw [hsum]
    simp only [summarize, List.map_map]
    exact List.map_id _
  refine ⟨?_, ?_, ?_⟩
  · rw [hmapcli]
    exact List.nodup_dedup _
  · intro k hkna
    constructor
    · rintro ⟨srow, hmem, hcl⟩
      have : k ∈ summary.map (fun r => r.cliente) :=
        List.mem_map.mpr ⟨srow, hmem, hcl⟩
      rw [hmapcli] at this
      rcases (keys_mem_iff.mp this).2 with ⟨p, hp, hpk⟩
      rw [← hfst]
      exact List.mem_map.mpr ⟨p, hp, hpk⟩
    · intro hkc
      rw [← hfst] at hkc
      rcases List.mem_map.mp hkc with ⟨p, hp, hpk⟩
      have hkkeys : k ∈ ((cli.zip (tpv.zip mk)).filterMap
          (fun p => if p.1 = Cell.na then none else some p.1)).dedup :=
        keys_mem_iff.mpr ⟨hkna, p, hp, hpk⟩
      have : k ∈ summary.map (fun r => r.cliente) := by rw [hmapcli]; exact hkkeys
      rcases List.mem_map.mp this with ⟨srow, hmem, hcl⟩
      exact ⟨srow, hmem, hcl⟩
  · intro srow hmem
    rw [hsum] at hmem
    simp only [summarize, List.mem_map] at hmem
    rcases hmem with ⟨k, hk, rfl⟩
    dsimp only
    have hkna : k ≠ Cell.na := (keys_mem_iff.mp hk).1
    rw [countNonNa_map_fst_of_key hkna
      (fun p hp => of_decide_eq_true (List.mem_filter.mp hp).2)]
    have hcf : cli.filter (fun c => c = k)
        = List.map Prod.fst ((cli.zip (tpv.zip mk)).filter (fun p => p.1 = k)) := by
      conv_lhs => rw [← hfst]
      rw [List.filter_map]
      rfl
    rw [hcf, List.length_map]

theorem summarize_filter_na (l : List (Cell × Cell × Cell)) :
    summarize (l.filter (fun p => ¬ p.1 = Cell.na)) = summarize l := by
  unfold summarize
  have hkeys : (l.filter (fun p => ¬ p.1 = Cell.na)).filterMap
      (fun p => if p.1 = Cell.na then none else some p.1) =
      l.filterMap (fun p => if p.1 = Cell.na then none else some p.1) := by
    rw [List.filterMap_filter]
    congr 1
    funext x
    by_cases hx : x.1 = Cell.na <;> simp [hx]
  rw [hkeys]
  apply List.map_congr_left
  intro k hk
  have hkna : k ≠ Cell.na := (keys_mem_iff.mp hk).1
  have hg : (l.filter (fun p => ¬ p.1 = Cell.na)).filter (fun p => p.1 = k)
      = l.filter (fun p => p.1 = k) := by
    rw [List.filter_comm]
    rw [List.filter_filter]
    apply List.filter_congr
    intro a _
    by_cases ha : a.1 = k
    · simp [ha, hkna]
    · simp [ha]
  rw [hg]

/-- Claim C10: rows whose `Cliente` is missing are silently dropped by
`compute_summary`: no summary row has a missing `Cliente`, and the summary
computed from the input equals the summary computed from the input with all
missing-`Cliente` rows removed — such rows contribute to no group. -/
theorem claim_C10 (df : Frame) (summary : List SummaryRow) (cli tpv mk : List Cell)
    (hs : compute_summary df = Except.ok summary)
    (hc : getCol df "Cliente" = Except.ok cli)
    (ht : getCol df "Tpv" = Except.ok tpv)
    (hm : getCol df "Markup" = Except.ok mk) :
    (∀ srow ∈ summary, srow.cliente ≠ Cell.na) ∧
    summary = summarize ((cli.zip (tpv.zip mk)).filter (fun p => ¬ p.1 = Cell.na)) := by
  have hsum := summary_eq_summarize hs hc ht hm
  constructor
  · intro srow hmem
    rw [hsum] at hmem
    simp only [summarize, List.mem_map] at hmem
    rcases hmem with ⟨k, hk, rfl⟩
    exact (keys_mem_iff.mp hk).1
  · rw [hsum, summarize_filter_na]

/-- Concrete input frame for the aggregation witnesses: two `Acme` rows, a
missing-`Cliente` row, one `Globex` row; all `Tpv`/`Markup` values missing
or non-numeric. -/
def Wdf : Frame :=
  ⟨["Cliente", "Tpv", "Markup"],
    [[Cell.str "Acme", Cell.na, Cell.str "x"],
     [Cell.str "Acme", Cell.str "y", Cell.na],
     [Cell.na, Cell.na, Cell.na],
     [Cell.str "Globex", Cell.na, Cell.na]]⟩

def Wcli : List Cell := [Cell.str "Acme", Cell.str "Acme", Cell.na, Cell.str "Globex"]

def Wtpv : List Cell := [Cell.na, Cell.str "y", Cell.na, Cell.na]

def Wmk : List Cell := [Cell.str "x", Cell.na, Cell.na, Cell.na]

def Wsummary : List SummaryRow :=
  [{ cliente := Cell.str "Acme", tpv_Total := 0, markup_Medio := none, registros := 2 },
   { cliente := Cell.str "Globex", tpv_Total := 0, markup_Medio := none, registros := 1 }]

theorem claim_C2_witness :
    (compute_summary Wdf = Except.ok Wsummary ∧
        getCol Wdf "Cliente" = Except.ok Wcli ∧
        getCol Wdf "Tpv" = Except.ok Wtpv ∧
        getCol Wdf "Markup" = Except.ok Wmk) ∧
      (∀ srow ∈ Wsummary,
        srow.tpv_Total =
          (((Wcli.zip (Wtpv.zip Wmk)).filter (fun p => p.1 = srow.cliente)).filterMap
            (fun p => numOf p.2.1)).sum ∧
        ((∀ p ∈ (Wcli.zip (Wtpv.zip Wmk)).filter (fun p => p.1 = srow.cliente),
            numOf p.2.1 = none) → srow.tpv_Total = 0)) :=
  ⟨⟨by decide, by decide, by decide, by decide⟩,
    claim_C2 Wdf Wsummary Wcli Wtpv Wmk (by decide) (by decide) (by decide) (by decide)⟩

theorem claim_C3_witness :
    (compute_summary Wdf = Except.ok Wsummary ∧
        getCol Wdf "Cliente" = Except.ok Wcli ∧
        getCol Wdf "Tpv" = Except.ok Wtpv ∧
        getCol Wdf "Markup" = Except.ok Wmk) ∧
      (∀ srow ∈ Wsummary, ∀ vals : List Rat,
        vals = ((Wcli.zip (Wtpv.zip Wmk)).filter (fun p => p.1 = srow.cliente)).filterMap
            (fun p => numOf p.2.2) →
          (vals = [] → srow.markup_Medio = none) ∧
          (vals ≠ [] → ∃ q, srow.markup_Medio = some q ∧
            (vals.length : Rat) * q = vals.sum)) :=
  ⟨⟨by decide, by decide, by decide, by decide⟩,
    claim_C3 Wdf Wsummary Wcli Wtpv Wmk (by decide) (by decide) (by decide) (by decide)⟩

theorem claim_C4_witness :
    (compute_summary Wdf = Except.ok Wsummary ∧
        getCol Wdf "Cliente" = Except.ok Wcli ∧
        getCol Wdf "Tpv" = Except.ok Wtpv ∧
        getCol Wdf "Markup" = Except.ok Wmk) ∧
      ((Wsummary.map (fun r => r.cliente)).Nodup ∧
        (∀ k : Cell, k ≠ Cell.na →
          ((∃ srow ∈ Wsummary, srow.cliente = k) ↔ k ∈ Wcli)) ∧
        (∀ srow ∈ Wsummary,
          srow.registros = (Wcli.filter (fun c => c = srow.cliente)).length)) :=
  ⟨⟨by decide, by decide, by decide, by decide⟩,
    claim_C4 Wdf Wsummary Wcli Wtpv Wmk (by decide) (by decide) (by decide) (by decide)⟩

theorem claim_C10_witness :
    (compute_summary Wdf = Except.ok Wsummary ∧
        getCol Wdf "Cliente" = Except.ok Wcli ∧
        getCol Wdf "Tpv" = Except.ok Wtpv ∧
        getCol Wdf "Markup" = Except.ok Wmk) ∧
      ((∀ srow ∈ Wsummary, srow.cliente ≠ Cell.na) ∧
        Wsummary = summarize ((Wcli.zip (Wtpv.zip Wmk)).filter
          (fun p => ¬ p.1 = Cell.na))) :=
  ⟨⟨by decide, by decide, by decide, by decide⟩,
    claim_C10 Wdf Wsummary Wcli Wtpv Wmk (by decide) (by decide) (by decide) (by decide)⟩

/-- Claim C5: `load_data` visits the directory entries in lexicographic
file-name order; the consolidated rows are exactly the retained files'
rows, concatenated in that order with each file's internal row order
preserved; and a supported, non-tilde file that parses and has the three
required columns (any casing/whitespace variant) is retained whole — its
row count is preserved and its rows appear contiguously, in order, in the
Consolidated Dataset. -/
theorem claim_C5 (listing : List (String × Entry)) (name : String) (t : Frame)
    (ds : List String) (F : Frame)
    (hmem : (name, Entry.file (Except.ok t)) ∈ listing)
    (htil : startsWithTilde name = false)
    (hext : supportedExt (lowerStr (splitextExt name)) = true)
    (hreq : requiredOk (t.cols.map normName) = true)
    (hload : load_data listing = (ds, Except.ok F)) :
    List.Sorted nameLe (sortByName listing) ∧
    List.Perm (sortByName listing) listing ∧
    F.rows = ((sortByName listing).flatMap entryFrames).flatMap
      (fun f => f.rows.map (alignRow F.cols f.cols)) ∧
    ∃ f2 A B, processEntry name (Entry.file (Except.ok t)) = Outcome.ok f2 ∧
      f2.rows.length = t.rows.length ∧
      F.rows = A ++ f2.rows.map (alignRow F.cols f2.cols) ++ B := by
  rcases load_data_ok hload with ⟨fs, hrun, hne, hF⟩
  rcases runEntries_ok hrun with ⟨hfs, hds, hnoerr⟩
  have hrowsF : F.rows = fs.flatMap (fun f => f.rows.map (alignRow F.cols f.cols)) := by
    rw [hF]
    exact concatFrames_rows fs
  have hmem2 : (name, Entry.file (Except.ok t)) ∈ sortByName listing :=
    (List.perm_insertionSort nameLe listing).mem_iff.mpr hmem
  have hpe : ∃ f2, processEntry name (Entry.file (Except.ok t)) = Outcome.ok f2 := by
    rcases hp : processEntry name (Entry.file (Except.ok t)) with ds0 | f2 | er
    · exfalso
      unfold processEntry at hp
      rw [if_neg (by simp [htil])] at hp
      dsimp only at hp
      rw [if_pos hext] at hp
      unfold processTable at hp
      rw [if_neg (by simp [normalizeFrame_cols, hreq])] at hp
      split at hp
      · exact absurd hp (by simp)
      · split at hp
        · exact absurd hp (by simp)
        · split at hp
          · exact absurd hp (by simp)
          · exact absurd hp (by simp)
    · exact ⟨f2, rfl⟩
    · exact absurd hp (hnoerr _ hmem2 er)
  rcases hpe with ⟨f2, hp⟩
  have hpt : processTable name t = Outcome.ok f2 := by
    have hp2 := hp
    unfold processEntry at hp2
    rw [if_neg (by simp [htil])] at hp2
    dsimp only at hp2
    rw [if_pos hext] at hp2
    exact hp2
  have hlen : f2.rows.length = t.rows.length := processTable_ok_len hpt
  have hef : entryFrames (name, Entry.file (Except.ok t)) = [f2] := by
    unfold entryFrames
    rw [hp]
  rcases List.append_of_mem hmem2 with ⟨P, Q, hPQ⟩
  have hfs2 : fs = P.flatMap entryFrames ++ [f2] ++ Q.flatMap entryFrames := by
    rw [hfs, hPQ, List.flatMap_append, List.flatMap_cons, hef, ← List.append_assoc]
  refine ⟨List.sorted_insertionSort nameLe listing,
    List.perm_insertionSort nameLe listing, by rw [← hfs]; exact hrowsF,
    f2,
    (P.flatMap entryFrames).flatMap (fun f => f.rows.map (alignRow F.cols f.cols)),
    (Q.flatMap entryFrames).flatMap (fun f => f.rows.map (alignRow F.cols f.cols)),
    hp, hlen, ?_⟩
  rw [hrowsF, hfs2, List.flatMap_append, List.flatMap_append]
  simp only [List.flatMap_cons, List.flatMap_nil, List.append_nil]

def C5listing : List (String × Entry) :=
  [("b.csv", Entry.file (Except.ok ⟨["Cliente", "Tpv", "Markup"],
      [[Cell.str "B", Cell.na, Cell.na]]⟩)),
   ("a.csv", Entry.file (Except.ok ⟨[" cliente", "TPV", "Markup"],
      [[Cell.str "A1", Cell.num 1, Cell.na], [Cell.str "A2", Cell.na, Cell.num 2]]⟩))]

def C5file : Frame :=
  ⟨[" cliente", "TPV", "Markup"],
    [[Cell.str "A1", Cell.num 1, Cell.na], [Cell.str "A2", Cell.na, Cell.num 2]]⟩

def C5frame : Frame :=
  ⟨["Cliente", "Tpv", "Markup"],
    [[Cell.str "A1", Cell.num 1, Cell.na],
     [Cell.str "A2", Cell.na, Cell.num 2],
     [Cell.str "B", Cell.na, Cell.na]]⟩

theorem claim_C5_witness :
    (("a.csv", Entry.file (Except.ok C5file)) ∈ C5listing ∧
        startsWithTilde "a.csv" = false ∧
        supportedExt (lowerStr (splitextExt "a.csv")) = true ∧
        requiredOk (C5file.cols.map normName) = true ∧
        load_data C5listing = ([], Except.ok C5frame)) ∧
      (List.Sorted nameLe (sortByName C5listing) ∧
        List.Perm (sortByName C5listing) C5listing ∧
        C5frame.rows = ((sortByName C5listing).flatMap entryFrames).flatMap
          (fun f => f.rows.map (alignRow C5frame.cols f.cols)) ∧
        ∃ f2 A B, processEntry "a.csv" (Entry.file (Except.ok C5file)) = Outcome.ok f2 ∧
          f2.rows.length = C5file.rows.length ∧
          C5frame.rows = A ++ f2.rows.map (alignRow C5frame.cols f2.cols) ++ B) :=
  ⟨⟨by decide, by decide, by decide, by decide, by decide⟩,
    claim_C5 C5listing "a.csv" C5file [] C5frame
      (by decide) (by decide) (by decide) (by decide) (by decide)⟩

theorem monthly_ts_eq {df : Frame} {dataCol tpvCol mkCol : List Cell}
    (hcont : df.cols.contains "Data" = true)
    (hd : getCol df "Data" = .ok dataCol) (ht : getCol df "Tpv" = .ok tpvCol)
    (hm : getCol df "Markup" = .ok mkCol) :
    monthly_ts df = monthlyCore dataCol tpvCol mkCol := by
  unfold monthly_ts
  rw [if_pos hcont, hd, ht, hm]
  rfl

theorem mem_keyed_map_fst_iff (rows : List (Cell × Cell × Cell)) (k : Nat × Nat) :
    k ∈ ((rows.filter (fun p => ¬ p.1 = Cell.na)).filterMap
        (fun p => (monthOf p.1).map (fun kk => (kk, p.2)))).map (fun q => q.1)
      ↔ ∃ p ∈ rows, monthOf p.1 = some k := by
  constructor
  · intro h
    rcases List.mem_map.mp h with ⟨q, hq, hqk⟩
    rcases List.mem_filterMap.mp hq with ⟨p, hp, hpq⟩
    rcases Option.map_eq_some'.mp hpq with ⟨kk, hkk, hq2⟩
    refine ⟨p, (List.mem_filter.mp hp).1, ?_⟩
    rw [hkk]
    rw [← hq2] at hqk
    have hkkk : kk = k := hqk
    rw [hkkk]
  · rintro ⟨p, hp, hk⟩
    have hna : ¬ p.1 = Cell.na := by
      intro h
      rw [h] at hk
      simp [monthOf] at hk
    refine List.mem_map.mpr ⟨(k, p.2), List.mem_filterMap.mpr
      ⟨p, List.mem_filter.mpr ⟨hp, decide_eq_true hna⟩, ?_⟩, rfl⟩
    rw [hk]
    rfl

theorem keyed_filter_eq (rows : List (Cell × Cell × Cell)) (k : Nat × Nat) :
    ((rows.filter (fun p => ¬ p.1 = Cell.na)).filterMap
        (fun p => (monthOf p.1).map (fun kk => (kk, p.2)))).filter (fun q => q.1 = k)
      = (rows.filter (fun p => monthOf p.1 = some k)).map (fun p => (k, p.2)) := by
  induction rows with
  | nil => rfl
  | cons p ps ih =>
    by_cases hna : p.1 = Cell.na
    · have h1 : (p :: ps).filter (fun p => ¬ p.1 = Cell.na)
          = ps.filter (fun p => ¬ p.1 = Cell.na) := by
        rw [List.filter_cons, if_neg (by simp [hna])]
      have hmo : monthOf p.1 = none := by rw [hna]; rfl
      have h2 : (p :: ps).filter (fun p => monthOf p.1 = some k)
          = ps.filter (fun p => monthOf p.1 = some k) := by
        rw [List.filter_cons, if_neg (by simp [hmo])]
      rw [h1, h2]
      exact ih
    · have h1 : (p :: ps).filter (fun p => ¬ p.1 = Cell.na)
          = p :: ps.filter (fun p => ¬ p.1 = Cell.na) := by
        rw [List.filter_cons, if_pos (by simp [hna])]
      rw [h1, List.filterMap_cons]
      dsimp only [Option.map] at ih
      cases hmo : monthOf p.1 with
      | none =>
        have h2 : (p :: ps).filter (fun p => monthOf p.1 = some k)
            = ps.filter (fun p => monthOf p.1 = some k) := by
          rw [List.filter_cons, if_neg (by simp [hmo])]
        dsimp only [Option.map]
        rw [h2]
        exact ih
      | some kk =>
        dsimp only [Option.map]
        rw [List.filter_cons]
        by_cases hk : kk = k
        · rw [if_pos (by simp [hk])]
          have h2 : (p :: ps).filter (fun p => monthOf p.1 = some k)
              = p :: ps.filter (fun p => monthOf p.1 = some k) := by
            rw [List.filter_cons, if_pos (by simp [hmo, hk])]
          rw [h2, List.map_cons, ih, hk]
        · rw [if_neg (by simp [hk])]
          have h2 : (p :: ps).filter (fun p => monthOf p.1 = some k)
              = ps.filter (fun p => monthOf p.1 = some k) := by
            rw [List.filter_cons, if_neg (by simp [hmo, hk])]
          rw [h2]
          exact ih

/-- Claim C9: whenever the Monthly Time Series is produced, rows whose
`Data` is missing are dropped before bucketing (a row contributes to a
month bucket exactly when its `Data` date falls in that month); there is
one bucket per occurring month and the buckets are ordered by month
ascending; and each bucket's `Tpv_Total` is the sum of the non-missing
`Tpv` values of its rows — in particular two rows dated in the same
calendar month land in the same single bucket. -/
theorem claim_C9 (df : Frame) (out : List MonthRow) (dataCol tpvCol mkCol : List Cell)
    (hcont : df.cols.contains "Data" = true)
    (hd : getCol df "Data" = Except.ok dataCol)
    (ht : getCol df "Tpv" = Except.ok tpvCol)
    (hm : getCol df "Markup" = Except.ok mkCol)
    (hts : monthly_ts df = Except.ok (some out)) :
    List.Sorted monthLe (out.map (fun r => r.anoMes)) ∧
    (out.map (fun r => r.anoMes)).Nodup ∧
    (∀ k : Nat × Nat, k ∈ out.map (fun r => r.anoMes) ↔
      ∃ p ∈ dataCol.zip (tpvCol.zip mkCol), monthOf p.1 = some k) ∧
    (∀ mrow ∈ out, mrow.tpv_Total =
      (((dataCol.zip (tpvCol.zip mkCol)).filter
          (fun p => monthOf p.1 = some mrow.anoMes)).filterMap
        (fun p => numOf p.2.1)).sum) := by
  rw [monthly_ts_eq hcont hd ht hm] at hts
  unfold monthlyCore at hts
  dsimp only at hts
  split at hts
  · exact absurd (Except.ok.inj hts) (by simp)
  · split at hts
    · have hout : out = (List.insertionSort monthLe
          ((((dataCol.zip (tpvCol.zip mkCol)).filter (fun p => ¬ p.1 = Cell.na)).filterMap
            (fun p => (monthOf p.1).map (fun kk => (kk, p.2)))).map (fun q => q.1)).dedup).map
          (fun k =>
            { anoMes := k
              tpv_Total := sumCells (((((dataCol.zip (tpvCol.zip mkCol)).filter
                  (fun p => ¬ p.1 = Cell.na)).filterMap
                    (fun p => (monthOf p.1).map (fun kk => (kk, p.2)))).filter
                  (fun q => q.1 = k)).map (fun q => q.2.1))
              markup_Medio := meanCells (((((dataCol.zip (tpvCol.zip mkCol)).filter
                  (fun p => ¬ p.1 = Cell.na)).filterMap
                    (fun p => (monthOf p.1).map (fun kk => (kk, p.2)))).filter
                  (fun q => q.1 = k)).map (fun q => q.2.2)) }) :=
        (Option.some.inj (Except.ok.inj hts)).symm
      have hanoMes : out.map (fun r => r.anoMes)
          = List.insertionSort monthLe
            ((((dataCol.zip (tpvCol.zip mkCol)).filter (fun p => ¬ p.1 = Cell.na)).filterMap
              (fun p => (monthOf p.1).map (fun kk => (kk, p.2)))).map (fun q => q.1)).dedup := by
        rw [hout, List.map_map]
        exact List.map_id _
      refine ⟨?_, ?_, ?_, ?_⟩
      · rw [hanoMes]
        exact List.sorted_insertionSort monthLe _
      · rw [hanoMes]
        exact ((List.perm_insertionSort monthLe _).nodup_iff).mpr (List.nodup_dedup _)
      · intro k
        rw [hanoMes, List.mem_insertionSort, List.mem_dedup]
        exact mem_keyed_map_fst_iff (dataCol.zip (tpvCol.zip mkCol)) k
      · intro mrow hmr
        rw [hout] at hmr
        rcases List.mem_map.mp hmr with ⟨k, hk, hkeq⟩
        rw [← hkeq]
        dsimp only
        rw [keyed_filter_eq, List.map_map]
        exact sumCells_map_snd_fst _
    · exact absurd hts (by simp)

def C9df : Frame :=
  ⟨["Data", "Tpv", "Markup", "Cliente"],
    [[Cell.date 2024 1 5, Cell.na, Cell.na, Cell.str "A"],
     [Cell.date 2024 1 28, Cell.str "zz", Cell.na, Cell.str "B"],
     [Cell.date 2023 12 31, Cell.na, Cell.na, Cell.str "C"],
     [Cell.na, Cell.num 999, Cell.num 999, Cell.str "D"]]⟩

def C9data : List Cell :=
  [Cell.date 2024 1 5, Cell.date 2024 1 28, Cell.date 2023 12 31, Cell.na]

def C9tpv : List Cell := [Cell.na, Cell.str "zz", Cell.na, Cell.num 999]

def C9mk : List Cell := [Cell.na, Cell.na, Cell.na, Cell.num 999]

def C9out : List MonthRow :=
  [{ anoMes := (2023, 12), tpv_Total := 0, markup_Medio := none },
   { anoMes := (2024, 1), tpv_Total := 0, markup_Medio := none }]

theorem claim_C9_witness :
    (C9df.cols.contains "Data" = true ∧
        getCol C9df "Data" = Except.ok C9data ∧
        getCol C9df "Tpv" = Except.ok C9tpv ∧
        getCol C9df "Markup" = Except.ok C9mk ∧
        monthly_ts C9df = Except.ok (some C9out)) ∧
      (List.Sorted monthLe (C9out.map (fun r => r.anoMes)) ∧
        (C9out.map (fun r => r.anoMes)).Nodup ∧
        (∀ k : Nat × Nat, k ∈ C9out.map (fun r => r.anoMes) ↔
          ∃ p ∈ C9data.zip (C9tpv.zip C9mk), monthOf p.1 = some k) ∧
        (∀ mrow ∈ C9out, mrow.tpv_Total =
          (((C9data.zip (C9tpv.zip C9mk)).filter
              (fun p => monthOf p.1 = some mrow.anoMes)).filterMap
            (fun p => numOf p.2.1)).sum)) :=
  ⟨⟨by decide, by decide, by decide, by decide, by decide⟩,
    claim_C9 C9df C9out C9data C9tpv C9mk
      (by decide) (by decide) (by decide) (by decide) (by decide)⟩
